import Mathlib

/-!
Shallow embedding of the OCTOPUS-CONSCIOUSNESS routing/bidding core:

* `src/manto/agente_manto.py` — `Manto.decompor_e_orquestrar` (bid selection
  and per-task orchestration) and `RedeDeTentaculos` (broadcast/dispatch).
* `src/manto/consciencia_central.py` — `ConscienciaCentral.processar_missao`
  (route-and-execute loop with its break-on-failure policy).
* `src/tentaculos/estrategista/cache.py` — `CacheEstrategia` (TTL + LRU cache).
* `src/tentaculos/tentaculo_busca.py` — `TentaculoBusca` (query extraction,
  bounded query cache, retry with exponential backoff, `executar`).

Machine time (`time.time()`, `datetime.now()`) is passed explicitly as a
rational-number parameter `agora`; the external search engine is a parameter
giving each attempt's outcome and duration; Python dictionaries keyed by
strings are lists of pairs in insertion order (front = oldest), matching
`OrderedDict`/`dict` iteration order.
-/

/-! ### Bids and Python max semantics (`Manto.decompor_e_orquestrar`) -/

/-- A readiness proposal, as built by `BaseTentaculo.gerar_proposta`:
keys `id_tentaculo`, `habilidade`, `confianca`, `custo_estimado`. -/
structure Proposta where
  id_tentaculo : Nat
  habilidade : String
  confianca : ℚ
  custo_estimado : ℚ
deriving DecidableEq, Repr

/-- Python's `max(iterable, key=...)` starting from a first element `p`:
scan left to right, replacing the current best only on a strictly greater
key, so the FIRST element attaining the maximum wins ties. -/
def pyMaxConfianca (p : Proposta) (ps : List Proposta) : Proposta :=
  ps.foldl (fun best q => if best.confianca < q.confianca then q else best) p

/-- Model of `max(propostas, key=lambda p: p['confianca'])` from
`Manto.decompor_e_orquestrar` (line 49); `none` on an empty bid list
(Python would raise, but the code guards `if not propostas` first). -/
def maxPorConfianca : List Proposta → Option Proposta
  | [] => none
  | p :: ps => some (pyMaxConfianca p ps)

/-- A mission token / task, as built during decomposition:
keys `id_tarefa` and `descricao`. -/
structure Tarefa where
  id_tarefa : String
  descricao : String
deriving DecidableEq, Repr

/-- The per-task orchestration loop of `Manto.decompor_e_orquestrar`
(lines 33-56), parameterised by the network's `broadcast` and
`executar_missao`; returns the recorded `resultados_finais` as an
association list in recording order.  A task with an empty proposal list
is skipped (`continue`), otherwise the highest-confidence proposal's
tentáculo executes and the result is recorded. -/
def decomporEOrquestrar (broadcast : Tarefa → List Proposta)
    (executarMissao : Nat → Tarefa → String) : List Tarefa → List (String × String)
  | [] => []
  | tarefa :: resto =>
    match broadcast tarefa with
    | [] => decomporEOrquestrar broadcast executarMissao resto
    | p :: ps =>
      let melhor := pyMaxConfianca p ps
      (tarefa.id_tarefa, executarMissao melhor.id_tentaculo tarefa) ::
        decomporEOrquestrar broadcast executarMissao resto

/-! ### Python string primitives

`str.lower`, `str.strip`, `str.replace` and the `in` substring test are
modelled over the character sequence of the string, with Python's
semantics (replace scans left to right and rewrites non-overlapping
occurrences; strip removes whitespace at both ends). -/

/-- Python `str.lower()` (per-character lowering). -/
def pyLower (s : String) : String := ⟨s.data.map Char.toLower⟩

/-- Python `str.strip()`: drop whitespace from both ends. -/
def pyStrip (s : String) : String :=
  ⟨((s.data.dropWhile Char.isWhitespace).reverse.dropWhile Char.isWhitespace).reverse⟩

/-- Python `pat in s` (substring containment) over character lists. -/
def pyContem (pat : List Char) : List Char → Bool
  | [] => pat.isEmpty
  | c :: resto => pat.isPrefixOf (c :: resto) || pyContem pat resto

/-- Worker for `pyReplace`, structurally recursive on a fuel bound: every
step consumes at least one character of the text and one unit of fuel, so
fuel `s.length` never runs out (the fuel-0 arm is unreachable from
`pyReplace`). -/
def pyReplaceFuel (pat repl : List Char) : Nat → List Char → List Char
  | 0, s => s
  | _ + 1, [] => []
  | fuel + 1, c :: resto =>
    if pat ≠ [] ∧ pat.isPrefixOf (c :: resto) = true then
      repl ++ pyReplaceFuel pat repl fuel ((c :: resto).drop pat.length)
    else
      c :: pyReplaceFuel pat repl fuel resto

/-- Python `s.replace(pat, repl)` over character lists: scan left to
right; at each position rewrite the occurrence of `pat` (when `pat` is
non-empty) and resume after it, else copy one character. -/
def pyReplace (pat repl s : List Char) : List Char :=
  pyReplaceFuel pat repl s.length s

/-! ### `ConscienciaCentral.processar_missao` (consciencia_central.py)

The tactical plan arrives as the list of its lines (`plano_tatico.split('\n')`);
each registered specialist is a name paired with its `executar_tarefa`
(an opaque payload-producing function).  The observable effect of the loop
is the sequence of published events. -/

/-- One observable event of the `processar_missao` loop: either a step
concluded by a specialist, or the `FALHA_CRITICA` event that precedes the
`break`. -/
inductive EventoPasso where
  | concluido (nome passo resultado : String)
  | falhaCritica (passo : String)
deriving DecidableEq, Repr

/-- Model of `ConscienciaCentral._rotear_tarefa` (lines 51-60): first registered
name occurring (lowercased) inside the task text wins; otherwise keyword
fallbacks; otherwise the "Estrategista" fallback. -/
def rotearTarefa (tentaculos : List (String × (String → String))) (tarefa : String) : String :=
  let tarefa_lower := pyLower tarefa
  match tentaculos.find? (fun nt => pyContem (pyLower nt.1).data tarefa_lower.data) with
  | some nt => nt.1
  | none =>
    if pyContem "busque".data tarefa_lower.data || pyContem "pesquise".data tarefa_lower.data then
      "Busca"
    else if pyContem "código".data tarefa_lower.data || pyContem "implemente".data tarefa_lower.data then
      "Codigo"
    else "Estrategista"

/-- The step loop of `ConscienciaCentral.processar_missao` (lines 28-44):
blank steps are skipped; a routed step whose specialist is registered is
executed and the loop continues; otherwise a `FALHA_CRITICA` event is
published and the loop `break`s, discarding every remaining step. -/
def processarMissao (tentaculos : List (String × (String → String))) :
    List String → List EventoPasso
  | [] => []
  | passo :: resto =>
    if pyStrip passo = "" then processarMissao tentaculos resto
    else
      let nome := rotearTarefa tentaculos passo
      if nome = "" then [EventoPasso.falhaCritica passo]
      else
        match tentaculos.find? (fun nt => nt.1 == nome) with
        | some nt =>
          EventoPasso.concluido nome passo (nt.2 passo) :: processarMissao tentaculos resto
        | none => [EventoPasso.falhaCritica passo]

/-! ### `CacheEstrategia` (estrategista/cache.py)

The `OrderedDict` is a list of key/entry pairs in insertion order: the
front is the oldest (the LRU end, what `next(iter(...))` yields), the back
is the most recently used. -/

/-- One cache entry: the stored `{'dado': ..., 'timestamp': ...}` dict. -/
structure EntradaEstrategia (α : Type) where
  dado : α
  timestamp : ℚ
deriving DecidableEq, Repr

/-- The `CacheEstrategia` state: configuration plus the ordered store. -/
structure CacheEstrategia (α : Type) where
  max_size : Nat
  ttl_segundos : ℚ
  cache : List (String × EntradaEstrategia α)
deriving DecidableEq, Repr

/-- The LRU pass of `_limpar_cache` (lines 37-40): while the entry count
exceeds `max_size`, delete the front (oldest) element. -/
def lruPassa (max_size : Nat) : List β → List β
  | [] => []
  | e :: resto => if max_size < resto.length + 1 then lruPassa max_size resto else e :: resto

/-- Model of `CacheEstrategia._limpar_cache` (lines 22-40): first drop every entry
whose age `agora - timestamp` exceeds the TTL, then apply the LRU pass. -/
def CacheEstrategia.limparCache (s : CacheEstrategia α) (agora : ℚ) : CacheEstrategia α :=
  let aposTTL := s.cache.filter (fun e => decide (agora - e.2.timestamp ≤ s.ttl_segundos))
  { s with cache := lruPassa s.max_size aposTTL }

/-- Model of `CacheEstrategia.get` (lines 42-54): lazy eviction, then on a hit pop
the entry and re-append it (most recently used) and return its datum. -/
def CacheEstrategia.get (s : CacheEstrategia α) (agora : ℚ) (chave : String) :
    Option α × CacheEstrategia α :=
  let s := s.limparCache agora
  match s.cache.find? (fun e => e.1 == chave) with
  | some par =>
    (some par.2.dado, { s with cache := (s.cache.eraseP (fun e => e.1 == chave)) ++ [par] })
  | none => (none, s)

/-- Model of `CacheEstrategia.set` (lines 56-68): lazy eviction, then remove any
old entry under the key, then append the fresh entry at the MRU end. -/
def CacheEstrategia.set (s : CacheEstrategia α) (agora : ℚ) (chave : String) (dado : α) :
    CacheEstrategia α :=
  let s := s.limparCache agora
  let s := if (s.cache.find? (fun e => e.1 == chave)).isSome
           then { s with cache := s.cache.eraseP (fun e => e.1 == chave) } else s
  { s with cache := s.cache ++ [(chave, ⟨dado, agora⟩)] }

/-- Model of `CacheEstrategia.size` (lines 70-73): lazy eviction, then the count. -/
def CacheEstrategia.size (s : CacheEstrategia α) (agora : ℚ) : Nat × CacheEstrategia α :=
  let s := s.limparCache agora
  (s.cache.length, s)

/-! ### `TentaculoBusca` (tentaculo_busca.py)

The external DuckDuckGo call is modelled by a function `tentativas` giving
for each 0-indexed attempt the outcome the `await asyncio.wait_for(...)`
would produce — `some results` for a completed call, `none` for a timeout
or an exception — together with the attempt's wall-clock duration in
milliseconds (`time.time() - inicio`).  The query-cache timestamps are in
minutes, the unit the expiry comparison `idade < timedelta(minutes=...)`
uses.  `hashlib.sha256` is an external library, kept as an opaque
key-derivation parameter `hashQuery`. -/

namespace ConfigBusca

/-- Value of `ConfigBusca.TIMEOUT_CONSULTA_SEGUNDOS` (line 24). -/
def TIMEOUT_CONSULTA_SEGUNDOS : Nat := 15

/-- Value of `ConfigBusca.MAX_RETRIES` (line 25). -/
def MAX_RETRIES : Nat := 3

/-- Value of `ConfigBusca.BACKOFF_BASE_SEGUNDOS` (line 26). -/
def BACKOFF_BASE_SEGUNDOS : Nat := 1

/-- Value of `ConfigBusca.TAMANHO_MAX_CACHE` (line 27). -/
def TAMANHO_MAX_CACHE : Nat := 200

/-- Value of `ConfigBusca.TEMPO_EXPIRACAO_CACHE_MINUTOS` (line 28). -/
def TEMPO_EXPIRACAO_CACHE_MINUTOS : Nat := 120

end ConfigBusca

/-- One search hit as consumed by `_formatar_resultados`: the dict fields
read via `res.get('title')`, `res.get('href')`, `res.get('body')`. -/
structure ResultadoBusca where
  title : Option String
  href : Option String
  body : Option String
deriving DecidableEq, Repr

/-- Outcome of one attempt of the wrapped external call: `resultado` is
`some` on a completed call, `none` on `asyncio.TimeoutError` or any other
exception (both take the same retry path); `duracaoMs` is the wall time
the attempt consumed. -/
structure Tentativa where
  resultado : Option (List ResultadoBusca)
  duracaoMs : Nat
deriving DecidableEq, Repr

/-- What one run of `_buscar_com_retry` returns and does: the returned
triple `(results, sucesso, latenciaMs)`, plus the loop's observable trace
— how many attempts ran, the total backoff slept (seconds), and the wall
time the attempts themselves consumed (milliseconds). -/
structure ResultadoRetry where
  results : Option (List ResultadoBusca)
  sucesso : Bool
  latenciaMs : Nat
  tentativasFeitas : Nat
  esperaTotalSegundos : Nat
  tempoTentativasMs : Nat
deriving DecidableEq, Repr

namespace TentaculoBusca

/-- The `for tentativa in range(MAX_RETRIES)` loop of `_buscar_com_retry`
(lines 188-219), accumulating the trace: on a completed attempt return its
results with that attempt's own latency; on a failed attempt sleep
`BACKOFF_BASE * 2 ^ tentativa` unless it was the last attempt; after the
loop return `(None, False, TIMEOUT_CONSULTA_SEGUNDOS * 1000)`. -/
def buscarComRetryLoop (tentativas : Nat → Tentativa) (maxRetries base : Nat) :
    Nat → Nat → Nat → Nat → ResultadoRetry
  | 0, i, esperaAcc, tempoAcc =>
    ⟨none, false, ConfigBusca.TIMEOUT_CONSULTA_SEGUNDOS * 1000, i, esperaAcc, tempoAcc⟩
  | restantes + 1, i, esperaAcc, tempoAcc =>
    let a := tentativas i
    match a.resultado with
    | some results =>
      ⟨some results, true, a.duracaoMs, i + 1, esperaAcc, tempoAcc + a.duracaoMs⟩
    | none =>
      if i < maxRetries - 1 then
        buscarComRetryLoop tentativas maxRetries base restantes (i + 1)
          (esperaAcc + base * 2 ^ i) (tempoAcc + a.duracaoMs)
      else
        buscarComRetryLoop tentativas maxRetries base restantes (i + 1)
          esperaAcc (tempoAcc + a.duracaoMs)

/-- Model of `TentaculoBusca._buscar_com_retry` (lines 186-219): run the attempt
loop (`for tentativa in range(maxRetries)`) from attempt index 0, with
`restantes = maxRetries` iterations left; `maxRetries` and `base` are the
values of `ConfigBusca.MAX_RETRIES` and `ConfigBusca.BACKOFF_BASE_SEGUNDOS`
in the source. -/
def buscarComRetry (tentativas : Nat → Tentativa) (maxRetries base : Nat) : ResultadoRetry :=
  buscarComRetryLoop tentativas maxRetries base maxRetries 0 0 0

/-- Value of `TentaculoBusca.PALAVRAS_CHAVE` (line 60); a Python set literal, kept
here in the order written in the source (set iteration order is not
observable for the membership tests the code performs). -/
def PALAVRAS_CHAVE : List String :=
  ["pesquisar", "buscar", "procurar", "encontrar", "o que é", "quem foi"]

/-- Value of `TentaculoBusca.PALAVRAS_REMOVER` (line 61); a Python set literal,
kept in the order written in the source (the removals the claims exercise
are insensitive to the iteration order). -/
def PALAVRAS_REMOVER : List String :=
  ["pesquisar", "buscar", "procurar", "encontrar", "informações sobre", "sobre", "por"]

/-- Model of `TentaculoBusca._extrair_query` (lines 113-118): lowercase, erase
every removal word, strip. -/
def extrairQuery (descricao_missao : String) : String :=
  pyStrip ⟨PALAVRAS_REMOVER.foldl (fun q palavra => pyReplace palavra.data [] q)
    (pyLower descricao_missao).data⟩

/-- One entry of `cache_buscas` (the `EntradaCacheBusca` dataclass);
`timestamp` is `datetime.now()` in minutes. -/
structure EntradaCacheBusca where
  resultado_formatado : String
  timestamp : ℚ
deriving DecidableEq, Repr

/-- Model of `TentaculoBusca._verificar_cache` (lines 83-97): look the hashed query
up; a fresh entry (age strictly below the expiry window) is returned, an
expired one is deleted, a miss leaves the cache unchanged. -/
def verificarCache (hashQuery : String → String) (agora : ℚ)
    (cache : List (String × EntradaCacheBusca)) (query : String) :
    Option String × List (String × EntradaCacheBusca) :=
  let hq := hashQuery query
  match cache.find? (fun e => e.1 == hq) with
  | some par =>
    if agora - par.2.timestamp < (ConfigBusca.TEMPO_EXPIRACAO_CACHE_MINUTOS : ℚ) then
      (some par.2.resultado_formatado, cache)
    else
      (none, cache.eraseP (fun e => e.1 == hq))
  | none => (none, cache)

/-- Model of `min(self.cache_buscas.items(), key=lambda x: x[1].timestamp)`
(line 103): Python `min` keeps the first element attaining the minimum. -/
def minPorTimestamp : List (String × EntradaCacheBusca) → Option (String × EntradaCacheBusca)
  | [] => none
  | e :: resto =>
    some (resto.foldl (fun best x => if x.2.timestamp < best.2.timestamp then x else best) e)

/-- Python dict assignment `cache[chave] = entrada`: replace in place when
the key exists (position kept), else append at the end. -/
def dictAtribui (cache : List (String × EntradaCacheBusca)) (chave : String)
    (entrada : EntradaCacheBusca) : List (String × EntradaCacheBusca) :=
  if (cache.find? (fun x => x.1 == chave)).isSome then
    cache.map (fun x => if x.1 == chave then (chave, entrada) else x)
  else cache ++ [(chave, entrada)]

/-- Model of `TentaculoBusca._adicionar_cache` (lines 99-111): when the cache is at
(or beyond) `TAMANHO_MAX_CACHE`, first delete the entry with the oldest
insertion timestamp, then store the new entry under the hashed query. -/
def adicionarCache (hashQuery : String → String) (agora : ℚ)
    (cache : List (String × EntradaCacheBusca)) (query resultado : String) :
    List (String × EntradaCacheBusca) :=
  let cache :=
    if ConfigBusca.TAMANHO_MAX_CACHE ≤ cache.length then
      match minPorTimestamp cache with
      | some entrada_mais_antiga => cache.eraseP (fun x => x.1 == entrada_mais_antiga.1)
      | none => cache
    else cache
  dictAtribui cache (hashQuery query) ⟨resultado, agora⟩

/-- Model of `TentaculoBusca._formatar_resultados` (lines 221-235). -/
def formatarResultados : Option (List ResultadoBusca) → String
  | none => "🔍 Busca concluída: Nenhum resultado encontrado."
  | some [] => "🔍 Busca concluída: Nenhum resultado encontrado."
  | some resultados =>
    let cab := "🔍 Busca concluída. " ++ toString resultados.length ++
      " resultado(s) principal(is) encontrado(s):\n"
    let linhas := resultados.enum.foldl (fun acc par =>
      let res := par.2
      let snippet := res.body.getD ""
      acc ++
        [toString (par.1 + 1) ++ ". 📄 Título: " ++ res.title.getD "Sem título",
         "   🔗 URL: " ++ res.href.getD "#"] ++
        (if snippet ≠ "" then
          ["   💬 Resumo: " ++
            (if 200 < snippet.length then snippet.take 200 ++ "..." else snippet)]
         else []) ++
        [""]) [cab]
    String.intercalate "\n" linhas

end TentaculoBusca

/-- Modelled from the spec: `src/shared/estado_sistema.py`, which
`tentaculo_busca.py` imports for `StatusTentaculo`, is not among the
sources.  Section 4.3 of the spec gives the per-agent state machine
Idle/Busy/Error; the code uses the members `OCUPADO` (busy) and `ATIVO`
(the non-busy resting state it restores). -/
inductive StatusTentaculo where
  | ATIVO
  | OCUPADO
  | ERRO
deriving DecidableEq, Repr

/-- The `MetricasBusca` dataclass (lines 32-46). -/
structure MetricasBusca where
  total_consultas : Nat
  consultas_sucesso : Nat
  consultas_falha : Nat
  tempo_total_ms : Nat
deriving DecidableEq, Repr

/-- The mutable state of one `TentaculoBusca` instance that `executar`
touches: its status, its query cache and its metrics. -/
structure EstadoBusca where
  status : StatusTentaculo
  cache_buscas : List (String × TentaculoBusca.EntradaCacheBusca)
  metricas : MetricasBusca
deriving DecidableEq, Repr

/-- Model of `TentaculoBusca.executar` (lines 141-184): set the status to OCUPADO;
extract the query — an empty query returns an error string at once,
BEFORE the `try`, so the `finally` that restores the status does not run
on that path; otherwise consult the cache, on a miss run the retry loop,
update the metrics, and return either the failure string or the formatted
(and cached) results.  The `except` arm (lines 179-181) is unreachable
here because every modelled sub-operation returns a value instead of
raising; on the `try` paths the `finally` (lines 182-184) restores the
status to ATIVO. -/
def TentaculoBusca.executar (hashQuery : String → String) (tentativas : Nat → Tentativa)
    (agora : ℚ) (est : EstadoBusca) (descricao : String) : String × EstadoBusca :=
  let est := { est with status := StatusTentaculo.OCUPADO }
  let query := TentaculoBusca.extrairQuery descricao
  if query = "" then
    ("❌ Erro: Missão de busca sem um termo válido.", est)
  else
    let par := TentaculoBusca.verificarCache hashQuery agora est.cache_buscas query
    match par.1 with
    | some cache_hit =>
      ("💨 Resposta do Cache:\n" ++ cache_hit,
        { est with cache_buscas := par.2, status := StatusTentaculo.ATIVO })
    | none =>
      let r := TentaculoBusca.buscarComRetry tentativas
        ConfigBusca.MAX_RETRIES ConfigBusca.BACKOFF_BASE_SEGUNDOS
      let m := est.metricas
      let m := { m with
        total_consultas := m.total_consultas + 1
        tempo_total_ms := m.tempo_total_ms + r.latenciaMs
        consultas_sucesso := if r.sucesso then m.consultas_sucesso + 1 else m.consultas_sucesso
        consultas_falha := if r.sucesso then m.consultas_falha else m.consultas_falha + 1 }
      if r.sucesso = false then
        ("❌ Erro: Falha ao buscar por \x27" ++ query ++ "\x27 após múltiplas tentativas.",
          { est with cache_buscas := par.2, metricas := m, status := StatusTentaculo.ATIVO })
      else
        let resultado_formatado := TentaculoBusca.formatarResultados r.results
        let cache2 := TentaculoBusca.adicionarCache hashQuery agora par.2 query resultado_formatado
        (resultado_formatado,
          { est with cache_buscas := cache2, metricas := m, status := StatusTentaculo.ATIVO })

/-! ### `RedeDeTentaculos` (agente_manto.py, lines 63-83) -/

/-- One registered tentáculo as the bus sees it: its id and its
`executar` method.  Registration builds `{t.id: t for t in tentaculos}`;
ids are unique at registration, so the first match is the dict entry. -/
structure TentaculoSim where
  id : Nat
  executar : Tarefa → String

/-- Model of `RedeDeTentaculos.executar_missao` (lines 79-83): dispatch to the
tentáculo with the given id, or return the routing-failure string when no
such id is registered. -/
def executarMissao (tentaculos : List TentaculoSim) (id_tentaculo : Nat)
    (token_missao : Tarefa) : String :=
  match tentaculos.find? (fun t => t.id == id_tentaculo) with
  | some t => t.executar token_missao
  | none => "Erro: Tentáculo não encontrado."

/-! ### Concrete instances

Closed inputs used to evaluate the definitions on the scenarios the spec
itself names (§8 Testable properties). -/

/-- The §8 example bid of agent A: `{conf:0.9, cost:2}`. -/
def propostaA : Proposta := ⟨1, "A", 9/10, 2⟩

/-- The §8 example bid of agent B: `{conf:0.9, cost:1}`. -/
def propostaB : Proposta := ⟨2, "B", 9/10, 1⟩

/-- The §8 example bid of agent C: `{conf:0.7, cost:0.5}`. -/
def propostaC : Proposta := ⟨3, "C", 7/10, 1/2⟩

/-- A task no tentáculo bids on. -/
def tarefaT1 : Tarefa := ⟨"T1", "Tarefa sem proponentes"⟩

/-- A task with one bidder. -/
def tarefaT2 : Tarefa := ⟨"T2", "Pesquisar frameworks"⟩

/-- A broadcast in which only `tarefaT2` attracts a proposal. -/
def broadcastExemplo : Tarefa → List Proposta :=
  fun t => if t.id_tarefa = "T2" then [propostaC] else []

/-- A dispatch stub recording a fixed payload. -/
def executarExemplo : Nat → Tarefa → String := fun _ _ => "ok"

/-- A specialist stub for the `processar_missao` loop. -/
def especialistaExemplo : String → String := fun _ => "plano gerado"

/-- A registry holding only the "Busca" specialist. -/
def tentaculosExemplo : List (String × (String → String)) := [("Busca", especialistaExemplo)]

/-- A step `_rotear_tarefa` routes to the unregistered "Codigo". -/
def passoSemEspecialista : String := "1. Analise o código do sistema"

/-- A step `_rotear_tarefa` routes to the registered "Busca". -/
def passoComEspecialista : String := "2. Busca algo na web"

/-- Attempt schedule: attempt 0 fails after 5000 ms, attempt 1 completes
after 2000 ms. -/
def tentativasSucessoNa2 : Nat → Tentativa := fun i => if i = 0 then ⟨none, 5000⟩ else ⟨some [], 2000⟩

/-- Attempt schedule: every attempt fails after 100 ms. -/
def tentativasFalhaSempre : Nat → Tentativa := fun _ => ⟨none, 100⟩

/-- A fresh `TentaculoBusca` state: resting status, empty cache, zeroed
metrics. -/
def estadoBuscaInicial : EstadoBusca := ⟨StatusTentaculo.ATIVO, [], ⟨0, 0, 0, 0⟩⟩

/-- An empty strategy cache with `max_size = 1`. -/
def cacheUm : CacheEstrategia ℚ := ⟨1, 10, []⟩

/-- An empty strategy cache with `max_size = 2`. -/
def cacheDois : CacheEstrategia ℚ := ⟨2, 100, []⟩

/-- A strategy cache holding one entry inserted at time 0. -/
def cacheComX : CacheEstrategia ℚ := ⟨2, 10, [("x", ⟨5, 0⟩)]⟩

/-- A full (`max_size = 2`) strategy cache, "a" least recently used. -/
def cacheAB : CacheEstrategia ℚ := ⟨2, 100, [("a", ⟨1, 0⟩), ("b", ⟨2, 0⟩)]⟩

/-- A registered tentáculo's `executar`. -/
def exec1 : Tarefa → String := fun _ => "resultado um"

/-- Another registered tentáculo's `executar`. -/
def exec2 : Tarefa → String := fun _ => "resultado dois"

/-- A two-tentáculo network. -/
def redeExemplo : List TentaculoSim := [⟨1, exec1⟩, ⟨2, exec2⟩]

/-- A two-entry query cache for the search tentáculo. -/
def cacheBuscaExemplo : List (String × TentaculoBusca.EntradaCacheBusca) :=
  [("h1", ⟨"r1", 0⟩), ("h2", ⟨"r2", 1⟩)]

/-- An integer-valued proposal used to exercise the selection rule. -/
def propostaD : Proposta := ⟨4, "D", 1, 3⟩

/-- Another integer-valued proposal with the same confidence as `propostaD`. -/
def propostaE : Proposta := ⟨5, "E", 1, 2⟩

/-- A weaker integer-valued proposal. -/
def propostaF : Proposta := ⟨6, "F", 0, 1⟩

/-! ## Helper lemmas -/

/-- Unfolding step of the Python `max` scan. -/
theorem pyMaxConfianca_cons (p q : Proposta) (ps : List Proposta) :
    pyMaxConfianca p (q :: ps) =
      pyMaxConfianca (if p.confianca < q.confianca then q else p) ps := rfl

/-- The Python `max` result dominates the seed and every scanned bid. -/
theorem pyMaxConfianca_ge (ps : List Proposta) : ∀ p : Proposta,
    p.confianca ≤ (pyMaxConfianca p ps).confianca ∧
      ∀ x ∈ ps, x.confianca ≤ (pyMaxConfianca p ps).confianca := by
  induction ps with
  | nil => intro p; exact ⟨le_refl _, by simp⟩
  | cons q ps ih =>
    intro p
    by_cases hpq : p.confianca < q.confianca
    · rw [pyMaxConfianca_cons, if_pos hpq]
      obtain ⟨h1, h2⟩ := ih q
      refine ⟨le_trans (le_of_lt hpq) h1, fun x hx => ?_⟩
      rcases List.mem_cons.mp hx with hx | hx
      · subst hx; exact h1
      · exact h2 x hx
    · rw [pyMaxConfianca_cons, if_neg hpq]
      obtain ⟨h1, h2⟩ := ih p
      refine ⟨h1, fun x hx => ?_⟩
      rcases List.mem_cons.mp hx with hx | hx
      · subst hx; exact le_trans (le_of_not_lt hpq) h1
      · exact h2 x hx

/-- The Python `max` result is the first list element attaining the
maximum: everything strictly before it has strictly smaller confidence. -/
theorem pyMaxConfianca_spec (ps : List Proposta) : ∀ p : Proposta,
    ∃ l₁ l₂, p :: ps = l₁ ++ pyMaxConfianca p ps :: l₂ ∧
      ∀ q ∈ l₁, q.confianca < (pyMaxConfianca p ps).confianca := by
  induction ps with
  | nil => intro p; exact ⟨[], [], rfl, by simp⟩
  | cons q ps ih =>
    intro p
    by_cases hpq : p.confianca < q.confianca
    · rw [pyMaxConfianca_cons, if_pos hpq]
      obtain ⟨l₁, l₂, hdec, hlt⟩ := ih q
      refine ⟨p :: l₁, l₂, ?_, fun x hx => ?_⟩
      · simpa using congrArg (List.cons p) hdec
      · rcases List.mem_cons.mp hx with hx | hx
        · subst hx
          exact lt_of_lt_of_le hpq (pyMaxConfianca_ge ps q).1
        · exact hlt x hx
    · rw [pyMaxConfianca_cons, if_neg hpq]
      obtain ⟨l₁, l₂, hdec, hlt⟩ := ih p
      cases l₁ with
      | nil =>
        have hpr : p = pyMaxConfianca p ps := by
          have := hdec
          simp only [List.nil_append] at this
          exact (List.cons.inj this).1
        refine ⟨[], q :: ps, ?_, by simp⟩
        simp [← hpr]
      | cons a l₁' =>
        have hinj := List.cons.inj (by simpa using hdec)
        obtain ⟨hap, hps⟩ := hinj
        refine ⟨p :: q :: l₁', l₂, ?_, fun x hx => ?_⟩
        · simp only [List.cons_append]
          exact congrArg (List.cons p) (congrArg (List.cons q) hps)
        · have hpmax : p.confianca < (pyMaxConfianca p ps).confianca := by
            have hpc : p.confianca = a.confianca := congrArg Proposta.confianca hap
            rw [hpc]
            exact hlt a (by simp)
          rcases List.mem_cons.mp hx with hx | hx
          · subst hx; exact hpmax
          rcases List.mem_cons.mp hx with hx | hx
          · subst hx; exact lt_of_le_of_lt (le_of_not_lt hpq) hpmax
          · exact hlt x (by simp [hx])

/-- C1 counterexample: on the spec's §8 bid set `[A{0.9,2}, B{0.9,1},
C{0.7,0.5}]` the code's `max(..., key=confianca)` selects A, the FIRST
maximal-confidence bid; it does not select B, so the estimated-cost
tie-break the claim states does not happen. -/
theorem selecao_ignora_custo_contraexemplo :
    maxPorConfianca [propostaA, propostaB, propostaC] = some propostaA ∧
    maxPorConfianca [propostaA, propostaB, propostaC] ≠ some propostaB := by
  constructor
  · norm_num [maxPorConfianca, pyMaxConfianca, propostaA, propostaB, propostaC]
  · intro h
    norm_num [maxPorConfianca, pyMaxConfianca, propostaA, propostaB, propostaC] at h

/-- C1 (amended): for every non-empty bid list the Coordinator's
selection `max(propostas, key=confianca)` deterministically returns a bid
of maximal confidence, and confidence ties are broken by registration
order alone — the winner is the FIRST bid attaining the maximum
(`estimated_cost` is never consulted). -/
theorem selecao_maior_confianca_primeiro (propostas : List Proposta) (b : Proposta)
    (hb : maxPorConfianca propostas = some b) :
    (∀ q ∈ propostas, q.confianca ≤ b.confianca) ∧
    ∃ l₁ l₂, propostas = l₁ ++ b :: l₂ ∧ ∀ q ∈ l₁, q.confianca < b.confianca := by
  cases propostas with
  | nil => simp [maxPorConfianca] at hb
  | cons p ps =>
    have hbv : b = pyMaxConfianca p ps := by
      have : some (pyMaxConfianca p ps) = some b := hb
      exact (Option.some.inj this).symm
    subst hbv
    obtain ⟨hp, hps⟩ := pyMaxConfianca_ge ps p
    refine ⟨fun q hq => ?_, pyMaxConfianca_spec ps p⟩
    rcases List.mem_cons.mp hq with hq | hq
    · subst hq; exact hp
    · exact hps q hq

/-- Witness for `selecao_maior_confianca_primeiro` at the bid list
`[D{conf 1, cost 3}, E{conf 1, cost 2}, F{conf 0, cost 1}]`: the first
maximal bid D wins despite its larger cost. -/
theorem selecao_maior_confianca_primeiro_witness :
    (∀ q ∈ [propostaD, propostaE, propostaF], q.confianca ≤ propostaD.confianca) ∧
    ∃ l₁ l₂, [propostaD, propostaE, propostaF] = l₁ ++ propostaD :: l₂ ∧
      ∀ q ∈ l₁, q.confianca < propostaD.confianca :=
  selecao_maior_confianca_primeiro [propostaD, propostaE, propostaF] propostaD (by decide)

/-- In the Manto loop every task whose broadcast has at least one
proposal gets a recorded result, wherever it sits in the plan. -/
theorem decomporEOrquestrar_registra (bc : Tarefa → List Proposta)
    (ex : Nat → Tarefa → String) : ∀ plano : List Tarefa, ∀ t ∈ plano,
    bc t ≠ [] → ∃ r, (t.id_tarefa, r) ∈ decomporEOrquestrar bc ex plano := by
  intro plano
  induction plano with
  | nil => simp
  | cons tarefa resto ih =>
    intro t ht hbc
    rcases List.mem_cons.mp ht with ht | ht
    · subst ht
      cases hcase : bc t with
      | nil => exact absurd hcase hbc
      | cons p ps =>
        refine ⟨ex (pyMaxConfianca p ps).id_tentaculo t, ?_⟩
        simp [decomporEOrquestrar, hcase]
    · obtain ⟨r, hr⟩ := ih t ht hbc
      refine ⟨r, ?_⟩
      cases hcase : bc tarefa with
      | nil => simpa [decomporEOrquestrar, hcase] using hr
      | cons p ps =>
        simp only [decomporEOrquestrar, hcase]
        exact List.mem_cons_of_mem _ hr

/-- C2 counterexample: with only "Busca" registered, the step "1. Analise
o código do sistema" routes to the unregistered "Codigo", so
`processar_missao` publishes `FALHA_CRITICA` and `break`s — the next step,
which routes to the registered "Busca" and executes fine on its own (second
conjunct), produces no event at all in the two-step plan (first conjunct):
the no-capable-agent step halted the remaining plan instead of being
skipped. -/
theorem processar_missao_interrompe_contraexemplo :
    processarMissao tentaculosExemplo [passoSemEspecialista, passoComEspecialista] =
      [EventoPasso.falhaCritica passoSemEspecialista] ∧
    processarMissao tentaculosExemplo [passoComEspecialista] =
      [EventoPasso.concluido "Busca" passoComEspecialista "plano gerado"] := by
  constructor <;> decide

/-- C2 (amended): the two coordinators disagree on no-capable-agent
handling.  `Manto.decompor_e_orquestrar` skips a zero-bid task — the
plan's tail is orchestrated exactly as if the task were absent, and every
later task with bidders still gets its recorded result — while
`ConscienciaCentral.processar_missao` publishes `FALHA_CRITICA` at a step
whose routed specialist is unregistered and `break`s, discarding all
remaining steps. -/
theorem politica_sem_proponentes
    (bc : Tarefa → List Proposta) (ex : Nat → Tarefa → String)
    (tarefa : Tarefa) (resto : List Tarefa) (hz : bc tarefa = [])
    (tentaculos : List (String × (String → String))) (passo : String)
    (passos : List String) (hblank : ¬ pyStrip passo = "")
    (hnome : rotearTarefa tentaculos passo ≠ "")
    (hroute : tentaculos.find? (fun nt => nt.1 == rotearTarefa tentaculos passo) = none) :
    decomporEOrquestrar bc ex (tarefa :: resto) = decomporEOrquestrar bc ex resto ∧
    (∀ t ∈ resto, bc t ≠ [] →
      ∃ r, (t.id_tarefa, r) ∈ decomporEOrquestrar bc ex (tarefa :: resto)) ∧
    processarMissao tentaculos (passo :: passos) = [EventoPasso.falhaCritica passo] := by
  have hskip : decomporEOrquestrar bc ex (tarefa :: resto) = decomporEOrquestrar bc ex resto := by
    simp [decomporEOrquestrar, hz]
  refine ⟨hskip, fun t ht hbc => ?_, ?_⟩
  · rw [hskip]
    exact decomporEOrquestrar_registra bc ex resto t ht hbc
  · simp only [processarMissao, if_neg hblank, if_neg hnome, hroute]

/-- Witness for `politica_sem_proponentes`: the zero-bid task `tarefaT1`
is skipped while `tarefaT2` still executes, and the unroutable step halts
the `processar_missao` plan. -/
theorem politica_sem_proponentes_witness :
    decomporEOrquestrar broadcastExemplo executarExemplo [tarefaT1, tarefaT2] =
      decomporEOrquestrar broadcastExemplo executarExemplo [tarefaT2] ∧
    (∀ t ∈ [tarefaT2], broadcastExemplo t ≠ [] →
      ∃ r, (t.id_tarefa, r) ∈
        decomporEOrquestrar broadcastExemplo executarExemplo [tarefaT1, tarefaT2]) ∧
    processarMissao tentaculosExemplo [passoSemEspecialista, passoComEspecialista] =
      [EventoPasso.falhaCritica passoSemEspecialista] :=
  politica_sem_proponentes broadcastExemplo executarExemplo tarefaT1 [tarefaT2]
    (by decide) tentaculosExemplo passoSemEspecialista [passoComEspecialista]
    (by decide) (by decide) (by rfl)

/-- Sum of the first `n` powers of two. -/
theorem soma_pot2 (n : Nat) : ∑ j in Finset.range n, 2 ^ j = 2 ^ n - 1 := by
  induction n with
  | zero => simp
  | succ n ih =>
    rw [Finset.sum_range_succ, ih]
    have h1 : 1 ≤ 2 ^ n := Nat.one_le_two_pow
    have h2 : 2 ^ (n + 1) = 2 ^ n + 2 ^ n := by ring
    omega

/-- Trace of the retry loop when attempts `0 .. N-2` fail and attempt
`N-1` completes: started at attempt `i ≤ N-1` with the loop-counter
invariant `i + restantes = maxRetries`, it returns that attempt's results
and latency after `N` total attempts, having slept
`base * 2 ^ j` after each failed attempt `j`. -/
theorem buscarComRetryLoop_sucesso (tentativas : Nat → Tentativa) (maxRetries base N : Nat)
    (rs : List ResultadoBusca) (hN1 : 1 ≤ N) (hNm : N ≤ maxRetries)
    (hfail : ∀ j, j < N - 1 → (tentativas j).resultado = none)
    (hsucc : (tentativas (N - 1)).resultado = some rs) :
    ∀ restantes i esperaAcc tempoAcc, i + restantes = maxRetries → i ≤ N - 1 →
      TentaculoBusca.buscarComRetryLoop tentativas maxRetries base restantes i esperaAcc tempoAcc =
        ⟨some rs, true, (tentativas (N - 1)).duracaoMs, N,
         esperaAcc + ∑ j in Finset.Ico i (N - 1), base * 2 ^ j,
         tempoAcc + ∑ j in Finset.Ico i N, (tentativas j).duracaoMs⟩ := by
  intro restantes
  induction restantes with
  | zero =>
    intro i w a hsum hi
    exfalso
    omega
  | succ restantes ih =>
    intro i w a hsum hi
    by_cases hiN : i = N - 1
    · subst hiN
      have hNeq : N - 1 + 1 = N := by omega
      have hlt : N - 1 < N := by omega
      simp only [TentaculoBusca.buscarComRetryLoop, hsucc]
      rw [Finset.Ico_self, Finset.sum_empty, add_zero,
        Finset.sum_eq_sum_Ico_succ_bot hlt, hNeq, Finset.Ico_self, Finset.sum_empty, add_zero]
    · have hilt : i < N - 1 := lt_of_le_of_ne hi hiN
      have hfi := hfail i hilt
      simp only [TentaculoBusca.buscarComRetryLoop, hfi]
      have hcond : i < maxRetries - 1 := by omega
      rw [if_pos hcond,
        ih (i + 1) (w + base * 2 ^ i) (a + (tentativas i).duracaoMs) (by omega) (by omega)]
      have hiN2 : i < N := by omega
      rw [Finset.sum_eq_sum_Ico_succ_bot hilt, Finset.sum_eq_sum_Ico_succ_bot hiN2,
        ← add_assoc, ← add_assoc]

/-- Trace of the retry loop when every attempt fails: all `maxRetries`
attempts run, a backoff sleep follows every attempt except the last, and
the loop falls through to `(None, False, TIMEOUT_CONSULTA_SEGUNDOS * 1000)`. -/
theorem buscarComRetryLoop_falha (tentativas : Nat → Tentativa) (maxRetries base : Nat)
    (hall : ∀ j, j < maxRetries → (tentativas j).resultado = none) :
    ∀ restantes i esperaAcc tempoAcc, i + restantes = maxRetries →
      TentaculoBusca.buscarComRetryLoop tentativas maxRetries base restantes i esperaAcc tempoAcc =
        ⟨none, false, ConfigBusca.TIMEOUT_CONSULTA_SEGUNDOS * 1000, maxRetries,
         esperaAcc + ∑ j in Finset.Ico i (maxRetries - 1), base * 2 ^ j,
         tempoAcc + ∑ j in Finset.Ico i maxRetries, (tentativas j).duracaoMs⟩ := by
  intro restantes
  induction restantes with
  | zero =>
    intro i w a hsum
    have hi : i = maxRetries := by omega
    subst hi
    have h1 : Finset.Ico i (i - 1) = ∅ := Finset.Ico_eq_empty (by omega)
    simp only [TentaculoBusca.buscarComRetryLoop, h1, Finset.Ico_self, Finset.sum_empty,
      add_zero]
  | succ restantes ih =>
    intro i w a hsum
    have hi : i < maxRetries := by omega
    have hfi := hall i hi
    simp only [TentaculoBusca.buscarComRetryLoop, hfi]
    by_cases hcond : i < maxRetries - 1
    · rw [if_pos hcond, ih (i + 1) (w + base * 2 ^ i) (a + (tentativas i).duracaoMs) (by omega),
        Finset.sum_eq_sum_Ico_succ_bot hcond, Finset.sum_eq_sum_Ico_succ_bot hi,
        ← add_assoc, ← add_assoc]
    · rw [if_neg hcond, ih (i + 1) w (a + (tentativas i).duracaoMs) (by omega)]
      have h1 : Finset.Ico i (maxRetries - 1) = ∅ := Finset.Ico_eq_empty (by omega)
      have h2 : Finset.Ico (i + 1) (maxRetries - 1) = ∅ := Finset.Ico_eq_empty (by omega)
      rw [h1, h2, Finset.sum_eq_sum_Ico_succ_bot hi, ← add_assoc]

/-- C7: the retry executor is faithful to the claimed protocol.  For an
operation failing on attempts `0 .. N-2` and succeeding on attempt `N-1`
(1-based attempt `N ≤ max_retries`) it returns success with the results
and exactly `N` attempts made, and the cumulative backoff slept equals
`base * (2^0 + 2^1 + ... + 2^(N-2))` — in particular it is at least that
sum, i.e. `base * (2^(N-1) - 1)`; for an operation failing (or timing
out) on every attempt it makes exactly `max_retries` attempts, sleeps
after every attempt except the last (the backoff sum ranges over
attempts `0 .. max_retries - 2` only), and returns failure with no
result. -/
theorem retry_backoff_exponencial (tentS tentF : Nat → Tentativa) (maxRetries base N : Nat)
    (rs : List ResultadoBusca) (hN1 : 1 ≤ N) (hNm : N ≤ maxRetries)
    (hfail : ∀ j, j < N - 1 → (tentS j).resultado = none)
    (hsucc : (tentS (N - 1)).resultado = some rs)
    (hall : ∀ j, j < maxRetries → (tentF j).resultado = none) :
    (TentaculoBusca.buscarComRetry tentS maxRetries base).sucesso = true ∧
    (TentaculoBusca.buscarComRetry tentS maxRetries base).results = some rs ∧
    (TentaculoBusca.buscarComRetry tentS maxRetries base).tentativasFeitas = N ∧
    (TentaculoBusca.buscarComRetry tentS maxRetries base).esperaTotalSegundos =
      ∑ j in Finset.range (N - 1), base * 2 ^ j ∧
    base * (2 ^ (N - 1) - 1) ≤
      (TentaculoBusca.buscarComRetry tentS maxRetries base).esperaTotalSegundos ∧
    (TentaculoBusca.buscarComRetry tentF maxRetries base).sucesso = false ∧
    (TentaculoBusca.buscarComRetry tentF maxRetries base).results = none ∧
    (TentaculoBusca.buscarComRetry tentF maxRetries base).tentativasFeitas = maxRetries ∧
    (TentaculoBusca.buscarComRetry tentF maxRetries base).esperaTotalSegundos =
      ∑ j in Finset.range (maxRetries - 1), base * 2 ^ j := by
  have hS := buscarComRetryLoop_sucesso tentS maxRetries base N rs hN1 hNm hfail hsucc
    maxRetries 0 0 0 (by omega) (by omega)
  have hF := buscarComRetryLoop_falha tentF maxRetries base hall maxRetries 0 0 0 (by omega)
  have hsum : ∑ j in Finset.range (N - 1), base * 2 ^ j = base * (2 ^ (N - 1) - 1) := by
    rw [← Finset.mul_sum, soma_pot2]
  unfold TentaculoBusca.buscarComRetry
  rw [hS, hF]
  refine ⟨rfl, rfl, rfl, ?_, ?_, rfl, rfl, rfl, ?_⟩
  · simp [← Finset.range_eq_Ico]
  · simp only [← Finset.range_eq_Ico, Nat.zero_add, hsum]
    exact le_refl _
  · simp [← Finset.range_eq_Ico]

/-- Witness for `retry_backoff_exponencial`: the schedule failing once
then completing (`N = 2`) and the always-failing schedule, both with
`max_retries = 3` and `base_backoff = 1`. -/
theorem retry_backoff_exponencial_witness :
    (TentaculoBusca.buscarComRetry tentativasSucessoNa2 3 1).sucesso = true ∧
    (TentaculoBusca.buscarComRetry tentativasSucessoNa2 3 1).results = some [] ∧
    (TentaculoBusca.buscarComRetry tentativasSucessoNa2 3 1).tentativasFeitas = 2 ∧
    (TentaculoBusca.buscarComRetry tentativasSucessoNa2 3 1).esperaTotalSegundos =
      ∑ j in Finset.range (2 - 1), 1 * 2 ^ j ∧
    1 * (2 ^ (2 - 1) - 1) ≤
      (TentaculoBusca.buscarComRetry tentativasSucessoNa2 3 1).esperaTotalSegundos ∧
    (TentaculoBusca.buscarComRetry tentativasFalhaSempre 3 1).sucesso = false ∧
    (TentaculoBusca.buscarComRetry tentativasFalhaSempre 3 1).results = none ∧
    (TentaculoBusca.buscarComRetry tentativasFalhaSempre 3 1).tentativasFeitas = 3 ∧
    (TentaculoBusca.buscarComRetry tentativasFalhaSempre 3 1).esperaTotalSegundos =
      ∑ j in Finset.range (3 - 1), 1 * 2 ^ j :=
  retry_backoff_exponencial tentativasSucessoNa2 tentativasFalhaSempre 3 1 2 []
    (by decide) (by decide) (by decide) (by decide) (by decide)

/-- C3 counterexample: attempt 0 fails after 5000 ms and attempt 1
completes after 2000 ms, yet the returned elapsed value is 2000 ms — the
timer restarts at each attempt (`inicio = time.time()` inside the loop),
so the time of the failed attempt is dropped; the time actually spent
across the attempts is 7000 ms.  On exhaustion the returned value is the
constant `TIMEOUT_CONSULTA_SEGUNDOS * 1000 = 15000` ms even though the
three failing attempts only consumed 300 ms. -/
theorem latencia_nao_acumulada_contraexemplo :
    (TentaculoBusca.buscarComRetry tentativasSucessoNa2 3 1).latenciaMs = 2000 ∧
    (TentaculoBusca.buscarComRetry tentativasSucessoNa2 3 1).tempoTentativasMs = 7000 ∧
    (TentaculoBusca.buscarComRetry tentativasSucessoNa2 3 1).latenciaMs ≠
      (TentaculoBusca.buscarComRetry tentativasSucessoNa2 3 1).tempoTentativasMs ∧
    (TentaculoBusca.buscarComRetry tentativasFalhaSempre 3 1).latenciaMs = 15000 ∧
    (TentaculoBusca.buscarComRetry tentativasFalhaSempre 3 1).tempoTentativasMs = 300 := by
  decide

/-- C3 (amended): the elapsed value `_buscar_com_retry` returns for the
metrics is NOT accumulated across attempts: when attempt `N-1` succeeds
it is that successful attempt's own duration — the time the earlier
failed attempts consumed (the sum over all attempts in the loop's trace)
is discarded — and when every attempt fails it is the constant
`TIMEOUT_CONSULTA_SEGUNDOS * 1000`, regardless of the time the attempts
actually consumed. -/
theorem latencia_retornada (tentS tentF : Nat → Tentativa) (maxRetries base N : Nat)
    (rs : List ResultadoBusca) (hN1 : 1 ≤ N) (hNm : N ≤ maxRetries)
    (hfail : ∀ j, j < N - 1 → (tentS j).resultado = none)
    (hsucc : (tentS (N - 1)).resultado = some rs)
    (hall : ∀ j, j < maxRetries → (tentF j).resultado = none) :
    (TentaculoBusca.buscarComRetry tentS maxRetries base).latenciaMs =
      (tentS (N - 1)).duracaoMs ∧
    (TentaculoBusca.buscarComRetry tentS maxRetries base).tempoTentativasMs =
      ∑ j in Finset.range N, (tentS j).duracaoMs ∧
    (TentaculoBusca.buscarComRetry tentF maxRetries base).latenciaMs =
      ConfigBusca.TIMEOUT_CONSULTA_SEGUNDOS * 1000 ∧
    (TentaculoBusca.buscarComRetry tentF maxRetries base).tempoTentativasMs =
      ∑ j in Finset.range maxRetries, (tentF j).duracaoMs := by
  have hS := buscarComRetryLoop_sucesso tentS maxRetries base N rs hN1 hNm hfail hsucc
    maxRetries 0 0 0 (by omega) (by omega)
  have hF := buscarComRetryLoop_falha tentF maxRetries base hall maxRetries 0 0 0 (by omega)
  unfold TentaculoBusca.buscarComRetry
  rw [hS, hF]
  refine ⟨rfl, ?_, rfl, ?_⟩
  · simp [← Finset.range_eq_Ico]
  · simp [← Finset.range_eq_Ico]

/-- Witness for `latencia_retornada`: the fail-once-then-complete and the
always-fail schedules with `max_retries = 3`, `base_backoff = 1`. -/
theorem latencia_retornada_witness :
    (TentaculoBusca.buscarComRetry tentativasSucessoNa2 3 1).latenciaMs =
      (tentativasSucessoNa2 (2 - 1)).duracaoMs ∧
    (TentaculoBusca.buscarComRetry tentativasSucessoNa2 3 1).tempoTentativasMs =
      ∑ j in Finset.range 2, (tentativasSucessoNa2 j).duracaoMs ∧
    (TentaculoBusca.buscarComRetry tentativasFalhaSempre 3 1).latenciaMs =
      ConfigBusca.TIMEOUT_CONSULTA_SEGUNDOS * 1000 ∧
    (TentaculoBusca.buscarComRetry tentativasFalhaSempre 3 1).tempoTentativasMs =
      ∑ j in Finset.range 3, (tentativasFalhaSempre j).duracaoMs :=
  latencia_retornada tentativasSucessoNa2 tentativasFalhaSempre 3 1 2 []
    (by decide) (by decide) (by decide) (by decide) (by decide)

/-- The LRU while-loop keeps exactly the trailing `max_size` elements:
it equals dropping the leading `length - max_size`. -/
theorem lruPassa_eq_drop (m : Nat) : ∀ l : List β, lruPassa m l = l.drop (l.length - m) := by
  intro l
  induction l with
  | nil => simp [lruPassa]
  | cons e resto ih =>
    simp only [lruPassa, List.length_cons]
    by_cases hm : m < resto.length + 1
    · rw [if_pos hm, ih]
      have hn : resto.length + 1 - m = (resto.length - m) + 1 := by omega
      rw [hn, List.drop_succ_cons]
    · rw [if_neg hm]
      have hn : resto.length + 1 - m = 0 := by omega
      rw [hn, List.drop_zero]

/-- The LRU pass never leaves more than `max_size` elements. -/
theorem lruPassa_length_le (m : Nat) (l : List β) : (lruPassa m l).length ≤ m := by
  rw [lruPassa_eq_drop, List.length_drop]
  omega

/-- The LRU pass is a sublist (it only deletes elements). -/
theorem lruPassa_sublist (m : Nat) (l : List β) : List.Sublist (lruPassa m l) l := by
  rw [lruPassa_eq_drop]
  exact List.drop_sublist _ _

/-- A list already within the bound passes the LRU pass unchanged. -/
theorem lruPassa_of_le (m : Nat) (l : List β) (h : l.length ≤ m) : lruPassa m l = l := by
  rw [lruPassa_eq_drop]
  have hn : l.length - m = 0 := by omega
  rw [hn, List.drop_zero]

/-- Cleanup `_limpar_cache` leaves the configuration untouched. -/
theorem limparCache_config (s : CacheEstrategia α) (agora : ℚ) :
    (s.limparCache agora).max_size = s.max_size ∧
      (s.limparCache agora).ttl_segundos = s.ttl_segundos := ⟨rfl, rfl⟩

/-- After `_limpar_cache` the store is within the size bound. -/
theorem limparCache_length_le (s : CacheEstrategia α) (agora : ℚ) :
    (s.limparCache agora).cache.length ≤ s.max_size :=
  lruPassa_length_le _ _

/-- Every entry surviving `_limpar_cache` was already present and is
unexpired at `agora`. -/
theorem limparCache_mem (s : CacheEstrategia α) (agora : ℚ) (e : String × EntradaEstrategia α)
    (he : e ∈ (s.limparCache agora).cache) :
    e ∈ s.cache ∧ agora - e.2.timestamp ≤ s.ttl_segundos := by
  have hf : e ∈ s.cache.filter (fun e => decide (agora - e.2.timestamp ≤ s.ttl_segundos)) :=
    (lruPassa_sublist _ _).mem he
  have := List.mem_filter.mp hf
  exact ⟨this.1, of_decide_eq_true this.2⟩

/-- After erasing key `k` from a store with pairwise-distinct keys, no
entry under `k` remains (the erased first match was the only one). -/
theorem eraseP_chave_ne {γ : Type} (k : String) : ∀ l : List (String × γ),
    (l.map Prod.fst).Nodup → ∀ e ∈ l.eraseP (fun x => x.1 == k), ¬ e.1 = k := by
  intro l
  induction l with
  | nil => simp
  | cons a resto ih =>
    intro hnd e he
    rw [List.map_cons, List.nodup_cons] at hnd
    by_cases hak : a.1 = k
    · rw [List.eraseP_cons_of_pos (by simp [hak])] at he
      intro hek
      exact hnd.1 (by simpa [hek, hak] using List.mem_map_of_mem Prod.fst he)
    · rw [List.eraseP_cons_of_neg (by simp [hak])] at he
      rcases List.mem_cons.mp he with he | he
      · subst he; exact hak
      · exact ih hnd.2 e he

/-- C4 counterexample: a `CacheEstrategia` with `max_size = 1` holds TWO
entries right after `set` returns — `_limpar_cache` runs before the
insertion, so the size bound is not yet enforced when `set` hands control
back. -/
theorem cache_excede_max_size_contraexemplo :
    ((cacheUm.set 0 "a" 1).set 0 "b" 2).cache.length = 2 ∧
    ¬ ((cacheUm.set 0 "a" 1).set 0 "b" 2).cache.length ≤ cacheUm.max_size := by
  constructor <;>
    simp [CacheEstrategia.set, CacheEstrategia.limparCache, lruPassa, cacheUm]

/-- C4 (amended): after `get` and `size` both invariants hold — at most
`max_size` entries, none older than the TTL at the operation's time; after
`set` the TTL invariant holds but the store may hold `max_size + 1`
entries (the lazy eviction runs BEFORE the insertion), and the size bound
is re-established by the eviction at the start of the next operation
(here observed through `size`). -/
theorem cache_invariantes_pos_operacao {α : Type} (s : CacheEstrategia α)
    (agora agora2 : ℚ) (chave : String) (dado : α) (httl : 0 ≤ s.ttl_segundos) :
    ((s.get agora chave).2.cache.length ≤ s.max_size ∧
      ∀ e ∈ (s.get agora chave).2.cache, agora - e.2.timestamp ≤ s.ttl_segundos) ∧
    ((s.size agora).2.cache.length ≤ s.max_size ∧
      ∀ e ∈ (s.size agora).2.cache, agora - e.2.timestamp ≤ s.ttl_segundos) ∧
    ((s.set agora chave dado).cache.length ≤ s.max_size + 1 ∧
      ∀ e ∈ (s.set agora chave dado).cache, agora - e.2.timestamp ≤ s.ttl_segundos) ∧
    ((s.set agora chave dado).size agora2).1 ≤ s.max_size := by
  refine ⟨?_, ?_, ?_, ?_⟩
  · cases hfind : (s.limparCache agora).cache.find? (fun e => e.1 == chave) with
    | none =>
      have hg : (s.get agora chave).2 = s.limparCache agora := by
        simp [CacheEstrategia.get, hfind]
      rw [hg]
      exact ⟨limparCache_length_le s agora, fun e he => (limparCache_mem s agora e he).2⟩
    | some par =>
      have hg : (s.get agora chave).2.cache =
          (s.limparCache agora).cache.eraseP (fun e => e.1 == chave) ++ [par] := by
        simp [CacheEstrategia.get, hfind]
      rw [hg]
      constructor
      · rw [List.length_append,
          List.length_eraseP_of_mem (List.mem_of_find?_eq_some hfind) (List.find?_some hfind)]
        have hpos : 0 < (s.limparCache agora).cache.length :=
          List.length_pos.mpr (List.ne_nil_of_mem (List.mem_of_find?_eq_some hfind))
        have := limparCache_length_le s agora
        simp only [List.length_singleton]
        omega
      · intro e he
        rcases List.mem_append.mp he with he | he
        · exact (limparCache_mem s agora e ((List.eraseP_sublist _).mem he)).2
        · rw [List.mem_singleton.mp he]
          exact (limparCache_mem s agora par (List.mem_of_find?_eq_some hfind)).2
  · exact ⟨limparCache_length_le s agora, fun e he => (limparCache_mem s agora e he).2⟩
  · have hset : (s.set agora chave dado).cache =
        (if ((s.limparCache agora).cache.find? (fun e => e.1 == chave)).isSome
         then { s.limparCache agora with
                cache := (s.limparCache agora).cache.eraseP (fun e => e.1 == chave) }
         else s.limparCache agora).cache ++ [(chave, ⟨dado, agora⟩)] := rfl
    constructor
    · rw [hset, List.length_append, List.length_singleton]
      have hle : (if ((s.limparCache agora).cache.find? (fun e => e.1 == chave)).isSome
          then { s.limparCache agora with
                 cache := (s.limparCache agora).cache.eraseP (fun e => e.1 == chave) }
          else s.limparCache agora).cache.length ≤ (s.limparCache agora).cache.length := by
        by_cases hfind : ((s.limparCache agora).cache.find? (fun e => e.1 == chave)).isSome
        · rw [if_pos hfind]
          exact List.length_eraseP_le _
        · rw [if_neg hfind]
      have := limparCache_length_le s agora
      omega
    · intro e he
      rw [hset] at he
      rcases List.mem_append.mp he with he | he
      · have hmem : e ∈ (s.limparCache agora).cache := by
          by_cases hfind : ((s.limparCache agora).cache.find? (fun e => e.1 == chave)).isSome
          · rw [if_pos hfind] at he
            exact (List.eraseP_sublist _).mem he
          · rw [if_neg hfind] at he
            exact he
        exact (limparCache_mem s agora e hmem).2
      · rw [List.mem_singleton.mp he]
        simpa using httl
  · have hms : (s.set agora chave dado).max_size = s.max_size := by
      show (if ((s.limparCache agora).cache.find? (fun e => e.1 == chave)).isSome = true
          then { s.limparCache agora with
                 cache := (s.limparCache agora).cache.eraseP (fun e => e.1 == chave) }
          else s.limparCache agora).max_size = s.max_size
      split <;> rfl
    have := limparCache_length_le (s.set agora chave dado) agora2
    rw [hms] at this
    exact this

/-- Witness for `cache_invariantes_pos_operacao` on a one-entry cache
(`max_size = 2`, TTL 10) read/written at time 1. -/
theorem cache_invariantes_pos_operacao_witness :
    ((cacheComX.get 1 "k").2.cache.length ≤ cacheComX.max_size ∧
      ∀ e ∈ (cacheComX.get 1 "k").2.cache,
        1 - e.2.timestamp ≤ cacheComX.ttl_segundos) ∧
    ((cacheComX.size 1).2.cache.length ≤ cacheComX.max_size ∧
      ∀ e ∈ (cacheComX.size 1).2.cache, 1 - e.2.timestamp ≤ cacheComX.ttl_segundos) ∧
    ((cacheComX.set 1 "k" 7).cache.length ≤ cacheComX.max_size + 1 ∧
      ∀ e ∈ (cacheComX.set 1 "k" 7).cache, 1 - e.2.timestamp ≤ cacheComX.ttl_segundos) ∧
    ((cacheComX.set 1 "k" 7).size 2).1 ≤ cacheComX.max_size :=
  cache_invariantes_pos_operacao cacheComX 1 2 "k" 7 (by decide)

/-- The store `set` leaves behind is some keyless-for-`chave` prefix `L`
within the size bound, followed by the fresh entry; the configuration is
unchanged. -/
theorem set_cache_existe {α : Type} (s : CacheEstrategia α) (t : ℚ) (chave : String) (v : α)
    (hnd : (s.cache.map Prod.fst).Nodup) :
    ∃ L, (s.set t chave v).cache = L ++ [(chave, ⟨v, t⟩)] ∧
      (∀ e ∈ L, ¬ e.1 = chave) ∧ L.length ≤ s.max_size ∧
      (s.set t chave v).max_size = s.max_size ∧
      (s.set t chave v).ttl_segundos = s.ttl_segundos := by
  have hcnd : ((s.limparCache t).cache.map Prod.fst).Nodup := by
    have hsub : List.Sublist (s.limparCache t).cache s.cache :=
      ((lruPassa_sublist _ _).trans (List.filter_sublist _))
    exact hnd.sublist (hsub.map Prod.fst)
  have hconf : (s.set t chave v).max_size = s.max_size ∧
      (s.set t chave v).ttl_segundos = s.ttl_segundos := by
    constructor
    · show (if ((s.limparCache t).cache.find? (fun e => e.1 == chave)).isSome = true
          then { s.limparCache t with
                 cache := (s.limparCache t).cache.eraseP (fun e => e.1 == chave) }
          else s.limparCache t).max_size = s.max_size
      split <;> rfl
    · show (if ((s.limparCache t).cache.find? (fun e => e.1 == chave)).isSome = true
          then { s.limparCache t with
                 cache := (s.limparCache t).cache.eraseP (fun e => e.1 == chave) }
          else s.limparCache t).ttl_segundos = s.ttl_segundos
      split <;> rfl
  by_cases hfind : ((s.limparCache t).cache.find? (fun e => e.1 == chave)).isSome
  · refine ⟨(s.limparCache t).cache.eraseP (fun e => e.1 == chave), ?_, ?_, ?_, hconf.1, hconf.2⟩
    · show (if ((s.limparCache t).cache.find? (fun e => e.1 == chave)).isSome = true
          then { s.limparCache t with
                 cache := (s.limparCache t).cache.eraseP (fun e => e.1 == chave) }
          else s.limparCache t).cache ++ [(chave, ⟨v, t⟩)] = _
      rw [if_pos hfind]
    · exact eraseP_chave_ne chave _ hcnd
    · exact le_trans (List.length_eraseP_le _) (limparCache_length_le s t)
  · refine ⟨(s.limparCache t).cache, ?_, ?_, limparCache_length_le s t, hconf.1, hconf.2⟩
    · show (if ((s.limparCache t).cache.find? (fun e => e.1 == chave)).isSome = true
          then { s.limparCache t with
                 cache := (s.limparCache t).cache.eraseP (fun e => e.1 == chave) }
          else s.limparCache t).cache ++ [(chave, ⟨v, t⟩)] = _
      rw [if_neg hfind]
    · intro e he hek
      have hnone : (s.limparCache t).cache.find? (fun e => e.1 == chave) = none :=
        Option.not_isSome_iff_eq_none.mp hfind
      have := List.find?_eq_none.mp hnone e he
      simp [hek] at this

/-- C5: TTL boundary behaviour.  With no intervening operation on the
key, an entry written at time `t` is gone when read at `t + TTL + ε`
(`ε > 0`) — the TTL pass deletes it before the lookup — and still
returned with its value when read at `t + TTL - ε`.  The cache needs
`max_size ≥ 1` (else the capacity pass itself would evict the key) and
the dict invariant of pairwise-distinct keys. -/
theorem cache_ttl_presenca_ausencia {α : Type} (s : CacheEstrategia α) (t ε : ℚ)
    (chave : String) (v : α) (hm : 1 ≤ s.max_size) (hε : 0 < ε)
    (hnd : (s.cache.map Prod.fst).Nodup) :
    ((s.set t chave v).get (t + s.ttl_segundos + ε) chave).1 = none ∧
    ((s.set t chave v).get (t + s.ttl_segundos - ε) chave).1 = some v := by
  obtain ⟨L, hL, hkeys, hlen, hms, httlc⟩ := set_cache_existe s t chave v hnd
  set s1 := s.set t chave v with hs1
  constructor
  · have hkeys2 : ∀ x ∈ (s1.limparCache (t + s.ttl_segundos + ε)).cache, ¬ x.1 = chave := by
      intro x hx hxk
      obtain ⟨hmem, hfresh⟩ := limparCache_mem s1 _ x hx
      rw [httlc] at hfresh
      rw [hL] at hmem
      rcases List.mem_append.mp hmem with hmem | hmem
      · exact hkeys x hmem hxk
      · have hx2 : x = (chave, ⟨v, t⟩) := List.mem_singleton.mp hmem
        rw [hx2] at hfresh
        simp only at hfresh
        linarith
    have hfindnone : (s1.limparCache (t + s.ttl_segundos + ε)).cache.find?
        (fun e => e.1 == chave) = none := by
      apply List.find?_eq_none.mpr
      intro x hx
      simpa using hkeys2 x hx
    simp [CacheEstrategia.get, hfindnone]
  · set t3 := t + s.ttl_segundos - ε with ht3
    set pexp := fun e : String × EntradaEstrategia α =>
      decide (t3 - e.2.timestamp ≤ s1.ttl_segundos) with hpexp
    have hstep : (s1.limparCache t3).cache =
        (List.filter pexp L).drop ((List.filter pexp L).length + 1 - s.max_size) ++
          [(chave, ⟨v, t⟩)] := by
      have hc : (s1.limparCache t3).cache =
          lruPassa s1.max_size (s1.cache.filter pexp) := rfl
      have hf1 : List.filter pexp [(chave, (⟨v, t⟩ : EntradaEstrategia α))] =
          [(chave, ⟨v, t⟩)] := by
        simp [hpexp, httlc]
        linarith
      rw [hc, hL, List.filter_append, hms, hf1, lruPassa_eq_drop, List.length_append,
        List.length_singleton, List.drop_append_of_le_length (by omega)]
    have hfind3 : (s1.limparCache t3).cache.find? (fun e => e.1 == chave) =
        some (chave, ⟨v, t⟩) := by
      rw [hstep, List.find?_append]
      have hnone : ((List.filter pexp L).drop
          ((List.filter pexp L).length + 1 - s.max_size)).find?
            (fun e => e.1 == chave) = none := by
        apply List.find?_eq_none.mpr
        intro x hx
        have hxL : x ∈ L := (List.filter_sublist _).mem ((List.drop_sublist _ _).mem hx)
        simpa using hkeys x hxL
      rw [hnone]
      simp
    simp [CacheEstrategia.get, hfind3]

/-- Witness for `cache_ttl_presenca_ausencia`: key "k" with value 7 set
at time 1 in a one-entry cache with TTL 10 is absent at time 12 and
present at time 10. -/
theorem cache_ttl_presenca_ausencia_witness :
    ((cacheComX.set 1 "k" 7).get (1 + cacheComX.ttl_segundos + 1) "k").1 = none ∧
    ((cacheComX.set 1 "k" 7).get (1 + cacheComX.ttl_segundos - 1) "k").1 = some 7 :=
  cache_ttl_presenca_ausencia cacheComX 1 1 "k" 7 (by decide) (by decide) (by decide)

/-- C6 counterexample: a full `max_size = 2` cache `["a", "b"]` after
inserting the third distinct key "c" still holds ALL THREE entries —
including "a", the least-recently-touched one the claim says the insert
evicts — because `set` runs its eviction before, not after, the
insertion. -/
theorem lru_eviccao_adiada_contraexemplo :
    (((cacheDois.set 0 "a" 1).set 0 "b" 2).set 0 "c" 3).cache.map Prod.fst =
      ["a", "b", "c"] ∧
    (((cacheDois.set 0 "a" 1).set 0 "b" 2).set 0 "c" 3).cache.length = 3 := by
  constructor <;>
    simp [CacheEstrategia.set, CacheEstrategia.limparCache, lruPassa, cacheDois]

/-- Operation `set` leaves the configuration fields untouched. -/
theorem set_config {α : Type} (s : CacheEstrategia α) (t : ℚ) (chave : String) (v : α) :
    (s.set t chave v).max_size = s.max_size ∧
      (s.set t chave v).ttl_segundos = s.ttl_segundos := by
  constructor
  · show (if ((s.limparCache t).cache.find? (fun e => e.1 == chave)).isSome = true
        then { s.limparCache t with
               cache := (s.limparCache t).cache.eraseP (fun e => e.1 == chave) }
        else s.limparCache t).max_size = s.max_size
    split <;> rfl
  · show (if ((s.limparCache t).cache.find? (fun e => e.1 == chave)).isSome = true
        then { s.limparCache t with
               cache := (s.limparCache t).cache.eraseP (fun e => e.1 == chave) }
        else s.limparCache t).ttl_segundos = s.ttl_segundos
    split <;> rfl

/-- A store whose entries are all unexpired and within the size bound
passes `_limpar_cache` unchanged. -/
theorem limparCache_id {α : Type} (s : CacheEstrategia α) (agora : ℚ)
    (hfresh : ∀ e ∈ s.cache, agora - e.2.timestamp ≤ s.ttl_segundos)
    (hlen : s.cache.length ≤ s.max_size) : s.limparCache agora = s := by
  have hf : s.cache.filter (fun e => decide (agora - e.2.timestamp ≤ s.ttl_segundos)) =
      s.cache := List.filter_eq_self.mpr (fun a ha => decide_eq_true (hfresh a ha))
  show { s with cache := (lruPassa s.max_size
      (s.cache.filter (fun e => decide (agora - e.2.timestamp ≤ s.ttl_segundos)))) } = s
  rw [hf, lruPassa_of_le _ _ hlen]

/-- Setting a genuinely new key on a fresh, not-overfull store appends
the entry and evicts nothing at all. -/
theorem set_sem_eviccao {α : Type} (s : CacheEstrategia α) (t : ℚ) (chave : String) (v : α)
    (hnew : ∀ e ∈ s.cache, ¬ e.1 = chave)
    (hfresh : ∀ e ∈ s.cache, t - e.2.timestamp ≤ s.ttl_segundos)
    (hlen : s.cache.length ≤ s.max_size) :
    (s.set t chave v).cache = s.cache ++ [(chave, ⟨v, t⟩)] := by
  have hid := limparCache_id s t hfresh hlen
  have hfind : (s.limparCache t).cache.find? (fun e => e.1 == chave) = none := by
    rw [hid]
    exact List.find?_eq_none.mpr (fun x hx => by simpa using hnew x hx)
  show (if ((s.limparCache t).cache.find? (fun e => e.1 == chave)).isSome = true
      then { s.limparCache t with
             cache := (s.limparCache t).cache.eraseP (fun e => e.1 == chave) }
      else s.limparCache t).cache ++ [(chave, ⟨v, t⟩)] = s.cache ++ [(chave, ⟨v, t⟩)]
  rw [hfind]
  simp [hid]

/-- A `get` hit on the head (LRU end) of a fresh, not-overfull store
returns its datum and moves exactly that entry to the MRU end. -/
theorem get_promove_cabeca {α : Type} (s : CacheEstrategia α) (tg : ℚ) (k1 : String)
    (e1 : EntradaEstrategia α) (resto2 : List (String × EntradaEstrategia α))
    (hcache : s.cache = (k1, e1) :: resto2)
    (hfresh : ∀ e ∈ s.cache, tg - e.2.timestamp ≤ s.ttl_segundos)
    (hlen : s.cache.length ≤ s.max_size) :
    (s.get tg k1).1 = some e1.dado ∧
    (s.get tg k1).2 = { s with cache := resto2 ++ [(k1, e1)] } := by
  have hid := limparCache_id s tg hfresh hlen
  have hfind : (s.limparCache tg).cache.find? (fun e => e.1 == k1) = some (k1, e1) := by
    rw [hid, hcache]
    simp
  constructor
  · simp [CacheEstrategia.get, hfind]
  · simp [CacheEstrategia.get, hfind, hid, hcache]

/-- C6 (amended): starting from a full (`max_size`) unexpired store, the
overflow insert itself evicts NOTHING — the store ends holding
`max_size + 1` entries (first conjunct) — and it is the lazy eviction at
the start of the NEXT operation that removes exactly the
least-recently-touched entry (the front) and no other (second conjunct).
A `get` hit on the LRU key before the overflow insert promotes it to the
MRU end, so the deferred eviction takes the next-oldest entry instead and
the touched key survives (third conjunct); a `get` miss performs no
promotion — it returns the lazily-cleaned state unchanged (fourth
conjunct), and `size` reorders nothing by construction. -/
theorem lru_eviccao_na_proxima_operacao {α : Type} (s : CacheEstrategia α)
    (tg t0 t1 : ℚ) (k1 k : String) (e1 : EntradaEstrategia α)
    (r2 : String × EntradaEstrategia α) (resto : List (String × EntradaEstrategia α)) (v : α)
    (hcache : s.cache = (k1, e1) :: r2 :: resto)
    (hlen : s.cache.length = s.max_size)
    (hfresh : ∀ e ∈ s.cache, t1 - e.2.timestamp ≤ s.ttl_segundos)
    (hg0 : tg ≤ t0) (h01 : t0 ≤ t1) (hnovo : t1 - t0 ≤ s.ttl_segundos)
    (hnew : ∀ e ∈ s.cache, ¬ e.1 = k) :
    (s.set t0 k v).cache = s.cache ++ [(k, ⟨v, t0⟩)] ∧
    ((s.set t0 k v).limparCache t1).cache = r2 :: resto ++ [(k, ⟨v, t0⟩)] ∧
    (((s.get tg k1).2.set t0 k v).limparCache t1).cache =
      resto ++ [(k1, e1), (k, ⟨v, t0⟩)] ∧
    ∀ kq, (s.limparCache tg).cache.find? (fun e => e.1 == kq) = none →
      (s.get tg kq).2 = s.limparCache tg := by
  have hfresh0 : ∀ e ∈ s.cache, t0 - e.2.timestamp ≤ s.ttl_segundos :=
    fun e he => le_trans (sub_le_sub_right h01 _) (hfresh e he)
  have hfreshg : ∀ e ∈ s.cache, tg - e.2.timestamp ≤ s.ttl_segundos :=
    fun e he => le_trans (sub_le_sub_right (le_trans hg0 h01) _) (hfresh e he)
  have hlen3 : resto.length + 2 = s.max_size := by
    rw [hcache] at hlen
    simpa using hlen
  have hc1 : (s.set t0 k v).cache = s.cache ++ [(k, ⟨v, t0⟩)] :=
    set_sem_eviccao s t0 k v hnew hfresh0 (le_of_eq hlen)
  have hconf := set_config s t0 k v
  have hfresh1 : ∀ e ∈ (s.set t0 k v).cache,
      t1 - e.2.timestamp ≤ (s.set t0 k v).ttl_segundos := by
    intro e he
    rw [hconf.2]
    rw [hc1] at he
    rcases List.mem_append.mp he with he | he
    · exact hfresh e he
    · rw [List.mem_singleton.mp he]
      simpa using hnovo
  have hc2 : ((s.set t0 k v).limparCache t1).cache = r2 :: resto ++ [(k, ⟨v, t0⟩)] := by
    have hfe : (s.set t0 k v).cache.filter
        (fun e => decide (t1 - e.2.timestamp ≤ (s.set t0 k v).ttl_segundos)) =
        (s.set t0 k v).cache :=
      List.filter_eq_self.mpr (fun a ha => decide_eq_true (hfresh1 a ha))
    have hrfl : ((s.set t0 k v).limparCache t1).cache =
        lruPassa (s.set t0 k v).max_size ((s.set t0 k v).cache.filter
          (fun e => decide (t1 - e.2.timestamp ≤ (s.set t0 k v).ttl_segundos))) := rfl
    rw [hrfl, hfe, hconf.1, hc1, hcache, lruPassa_eq_drop]
    have hdrop : (((k1, e1) :: r2 :: resto ++ [(k, (⟨v, t0⟩ : EntradaEstrategia α))])).length
        - s.max_size = 1 := by
      simp only [List.length_append, List.length_cons, List.length_singleton,
        List.length_nil]
      omega
    rw [List.cons_append] at hdrop ⊢
    rw [hdrop]
    simp
  refine ⟨hc1, hc2, ?_, ?_⟩
  · obtain ⟨hgv, hgs⟩ := get_promove_cabeca s tg k1 e1 (r2 :: resto) hcache hfreshg
      (le_of_eq hlen)
    rw [hgs]
    set s2 : CacheEstrategia α := { s with cache := (r2 :: resto) ++ [(k1, e1)] } with hs2
    have hmem2 : ∀ e ∈ s2.cache, e ∈ s.cache := by
      intro e he
      rw [hcache]
      rcases List.mem_append.mp he with he | he
      · exact List.mem_cons_of_mem _ he
      · rw [List.mem_singleton.mp he]
        exact List.mem_cons_self _ _
    have hset2 : (s2.set t0 k v).cache = s2.cache ++ [(k, ⟨v, t0⟩)] := by
      apply set_sem_eviccao
      · exact fun e he => hnew e (hmem2 e he)
      · exact fun e he => hfresh0 e (hmem2 e he)
      · show ((r2 :: resto) ++ [(k1, e1)]).length ≤ s.max_size
        simp only [List.length_append, List.length_cons, List.length_singleton,
          List.length_nil]
        omega
    have hconf2 := set_config s2 t0 k v
    have hfresh2 : ∀ e ∈ (s2.set t0 k v).cache,
        t1 - e.2.timestamp ≤ (s2.set t0 k v).ttl_segundos := by
      intro e he
      rw [hconf2.2]
      rw [hset2] at he
      rcases List.mem_append.mp he with he | he
      · exact hfresh e (hmem2 e he)
      · rw [List.mem_singleton.mp he]
        simpa using hnovo
    have hfe2 : (s2.set t0 k v).cache.filter
        (fun e => decide (t1 - e.2.timestamp ≤ (s2.set t0 k v).ttl_segundos)) =
        (s2.set t0 k v).cache :=
      List.filter_eq_self.mpr (fun a ha => decide_eq_true (hfresh2 a ha))
    have hrfl2 : ((s2.set t0 k v).limparCache t1).cache =
        lruPassa (s2.set t0 k v).max_size ((s2.set t0 k v).cache.filter
          (fun e => decide (t1 - e.2.timestamp ≤ (s2.set t0 k v).ttl_segundos))) := rfl
    rw [hrfl2, hfe2, hconf2.1, hset2, lruPassa_eq_drop]
    have hdrop2 : ((((r2 :: resto) ++ [(k1, e1)]) ++ [(k, (⟨v, t0⟩ : EntradaEstrategia α))]).length)
        - s2.max_size = 1 := by
      simp only [List.length_append, List.length_cons, List.length_singleton,
        List.length_nil]
      have hms2 : s2.max_size = s.max_size := rfl
      omega
    rw [hdrop2]
    simp
  · intro kq hq
    simp [CacheEstrategia.get, hq]

/-- Witness for `lru_eviccao_na_proxima_operacao` on the full two-entry
cache `["a", "b"]` (`max_size = 2`): inserting "c" keeps all three; the
next cleanup evicts exactly "a"; touching "a" first makes the cleanup
evict "b" instead. -/
theorem lru_eviccao_na_proxima_operacao_witness :
    (cacheAB.set 2 "c" 9).cache = cacheAB.cache ++ [("c", ⟨9, 2⟩)] ∧
    ((cacheAB.set 2 "c" 9).limparCache 3).cache =
      ("b", ⟨2, 0⟩) :: [] ++ [("c", ⟨9, 2⟩)] ∧
    (((cacheAB.get 1 "a").2.set 2 "c" 9).limparCache 3).cache =
      [] ++ [("a", ⟨1, 0⟩), ("c", ⟨9, 2⟩)] ∧
    ∀ kq, (cacheAB.limparCache 1).cache.find? (fun e => e.1 == kq) = none →
      (cacheAB.get 1 kq).2 = cacheAB.limparCache 1 :=
  lru_eviccao_na_proxima_operacao cacheAB 1 2 3 "a" "c" ⟨1, 0⟩ ("b", ⟨2, 0⟩) [] 9
    (by decide) (by decide) (by norm_num [cacheAB]) (by decide) (by decide)
    (by norm_num [cacheAB]) (by decide)

/-- C8 (code bug): `executar` sets the status to OCUPADO on entry, and
its `try/finally` restores ATIVO on the normal and error paths — but the
invalid-input guard `if not query: return ...` sits BEFORE the `try`, so
on a mission whose description reduces to an empty query ("buscar" is
itself a removal word) `executar` returns the error payload with the
status still OCUPADO, never restored.  The third conjunct shows the
restoration does happen on a path that reaches the `try` block. -/
theorem executar_status_nao_restaurado :
    (TentaculoBusca.executar id tentativasFalhaSempre 0 estadoBuscaInicial "buscar").1 =
      "❌ Erro: Missão de busca sem um termo válido." ∧
    (TentaculoBusca.executar id tentativasFalhaSempre 0 estadoBuscaInicial "buscar").2.status =
      StatusTentaculo.OCUPADO ∧
    (TentaculoBusca.executar id tentativasFalhaSempre 0 estadoBuscaInicial
      "pesquisar gatos").2.status = StatusTentaculo.ATIVO := by
  decide

/-- C9: `executar_missao` with an id absent from the registry returns the
routing-failure value "Erro: Tentáculo não encontrado." instead of
raising; with a registered id it invokes that tentáculo's `executar` and
returns its result unchanged; and the routing-failure value is distinct
from every failure payload the search agent itself produces (which start
with "❌") and from its cache-hit payload. -/
theorem executar_missao_roteamento (tentaculos : List TentaculoSim) (id_tentaculo : Nat)
    (token_missao : Tarefa) :
    ((∀ t ∈ tentaculos, ¬ t.id = id_tentaculo) →
      executarMissao tentaculos id_tentaculo token_missao =
        "Erro: Tentáculo não encontrado.") ∧
    (∀ tsel, tentaculos.find? (fun t => t.id == id_tentaculo) = some tsel →
      executarMissao tentaculos id_tentaculo token_missao =
        tsel.executar token_missao) ∧
    (∀ query : String,
      ¬ ("Erro: Tentáculo não encontrado." =
          "❌ Erro: Falha ao buscar por \x27" ++ query ++
            "\x27 após múltiplas tentativas.") ∧
      ¬ ("Erro: Tentáculo não encontrado." =
          "❌ Erro: Missão de busca sem um termo válido.") ∧
      ¬ ("Erro: Tentáculo não encontrado." = "💨 Resposta do Cache:\n" ++ query)) := by
  refine ⟨?_, ?_, ?_⟩
  · intro h
    have hfind : tentaculos.find? (fun t => t.id == id_tentaculo) = none :=
      List.find?_eq_none.mpr (fun x hx => by simpa using h x hx)
    simp [executarMissao, hfind]
  · intro tsel hfind
    simp [executarMissao, hfind]
  · intro query
    refine ⟨?_, by decide, ?_⟩
    · intro h
      have h1 : ("Erro: Tentáculo não encontrado." : String).data.head? = some 'E' := rfl
      have h2 : ("❌ Erro: Falha ao buscar por \x27" ++ query ++
          "\x27 após múltiplas tentativas.").data.head? = some '❌' := rfl
      rw [h] at h1
      rw [h2] at h1
      exact absurd (Option.some.inj h1) (by decide)
    · intro h
      have h1 : ("Erro: Tentáculo não encontrado." : String).data.head? = some 'E' := rfl
      have h2 : ("💨 Resposta do Cache:\n" ++ query).data.head? = some '💨' := rfl
      rw [h] at h1
      rw [h2] at h1
      exact absurd (Option.some.inj h1) (by decide)

/-- Witness for `executar_missao_roteamento`: dispatching the unknown id
7 on the two-tentáculo network returns the routing-failure string, while
dispatching id 1 returns tentáculo 1's own result unchanged. -/
theorem executar_missao_roteamento_witness :
    executarMissao redeExemplo 7 tarefaT1 = "Erro: Tentáculo não encontrado." ∧
    executarMissao redeExemplo 1 tarefaT1 =
      TentaculoSim.executar ⟨1, exec1⟩ tarefaT1 :=
  ⟨(executar_missao_roteamento redeExemplo 7 tarefaT1).1 (by decide),
   (executar_missao_roteamento redeExemplo 1 tarefaT1).2.1 ⟨1, exec1⟩ (by rfl)⟩

/-- The Python `min`-by-timestamp fold picks an element no later than the
seed and than every scanned element. -/
theorem foldlMin_spec : ∀ (resto : List (String × TentaculoBusca.EntradaCacheBusca))
    (b : String × TentaculoBusca.EntradaCacheBusca),
    (resto.foldl (fun best x => if x.2.timestamp < best.2.timestamp then x else best) b = b ∨
      resto.foldl (fun best x => if x.2.timestamp < best.2.timestamp then x else best) b
        ∈ resto) ∧
    (resto.foldl (fun best x => if x.2.timestamp < best.2.timestamp then x else best)
      b).2.timestamp ≤ b.2.timestamp ∧
    ∀ x ∈ resto,
      (resto.foldl (fun best x => if x.2.timestamp < best.2.timestamp then x else best)
        b).2.timestamp ≤ x.2.timestamp := by
  intro resto
  induction resto with
  | nil => intro b; exact ⟨Or.inl rfl, le_refl _, by simp⟩
  | cons y resto ih =>
    intro b
    rw [List.foldl_cons]
    by_cases hyb : y.2.timestamp < b.2.timestamp
    · rw [if_pos hyb]
      obtain ⟨hmem, hle, hall⟩ := ih y
      refine ⟨?_, le_trans hle (le_of_lt hyb), ?_⟩
      · rcases hmem with h | h
        · rw [h]
          exact Or.inr (List.mem_cons_self _ _)
        · exact Or.inr (List.mem_cons_of_mem _ h)
      · intro x hx
        rcases List.mem_cons.mp hx with hx | hx
        · subst hx
          exact hle
        · exact hall x hx
    · rw [if_neg hyb]
      obtain ⟨hmem, hle, hall⟩ := ih b
      refine ⟨?_, hle, ?_⟩
      · rcases hmem with h | h
        · exact Or.inl h
        · exact Or.inr (List.mem_cons_of_mem _ h)
      · intro x hx
        rcases List.mem_cons.mp hx with hx | hx
        · subst hx
          exact le_trans hle (le_of_not_lt hyb)
        · exact hall x hx

/-- The entry Python's `min(items, key=timestamp)` chooses is a member
with the oldest insertion timestamp. -/
theorem minPorTimestamp_spec (l : List (String × TentaculoBusca.EntradaCacheBusca))
    (e : String × TentaculoBusca.EntradaCacheBusca)
    (h : TentaculoBusca.minPorTimestamp l = some e) :
    e ∈ l ∧ ∀ x ∈ l, e.2.timestamp ≤ x.2.timestamp := by
  cases l with
  | nil => simp [TentaculoBusca.minPorTimestamp] at h
  | cons e0 resto =>
    have he : e = resto.foldl
        (fun best x => if x.2.timestamp < best.2.timestamp then x else best) e0 := by
      have := h
      simp only [TentaculoBusca.minPorTimestamp, Option.some.injEq] at this
      exact this.symm
    obtain ⟨hmem, hle, hall⟩ := foldlMin_spec resto e0
    subst he
    constructor
    · rcases hmem with h2 | h2
      · rw [h2]; exact List.mem_cons_self _ _
      · exact List.mem_cons_of_mem _ h2
    · intro x hx
      rcases List.mem_cons.mp hx with hx | hx
      · subst hx; exact hle
      · exact hall x hx

/-- Python dict assignment grows the store by at most one entry. -/
theorem dictAtribui_length_le (c : List (String × TentaculoBusca.EntradaCacheBusca))
    (chave : String) (ent : TentaculoBusca.EntradaCacheBusca) :
    (TentaculoBusca.dictAtribui c chave ent).length ≤ c.length + 1 := by
  unfold TentaculoBusca.dictAtribui
  by_cases hf : (c.find? (fun x => x.1 == chave)).isSome
  · rw [if_pos hf, List.length_map]
    omega
  · rw [if_neg hf, List.length_append, List.length_singleton]

/-- C10: the search tentáculo's query cache never exceeds
`TAMANHO_MAX_CACHE` (200) entries: `_adicionar_cache` first deletes the
entry with the OLDEST INSERTION TIMESTAMP (not LRU — reads never refresh
timestamps) when at capacity and only then stores the new entry, and
`_verificar_cache` only ever deletes, so the bound is an invariant of
every cache operation of `TentaculoBusca`.  The victim of the capacity
eviction is a member with minimal insertion timestamp (third conjunct). -/
theorem cache_busca_limite_tamanho (hashQuery : String → String) (agora : ℚ)
    (cache : List (String × TentaculoBusca.EntradaCacheBusca)) (query resultado : String)
    (hlen : cache.length ≤ ConfigBusca.TAMANHO_MAX_CACHE) :
    (TentaculoBusca.adicionarCache hashQuery agora cache query resultado).length ≤
      ConfigBusca.TAMANHO_MAX_CACHE ∧
    (TentaculoBusca.verificarCache hashQuery agora cache query).2.length ≤
      ConfigBusca.TAMANHO_MAX_CACHE ∧
    ∀ vitima, TentaculoBusca.minPorTimestamp cache = some vitima →
      vitima ∈ cache ∧ ∀ x ∈ cache, vitima.2.timestamp ≤ x.2.timestamp := by
  refine ⟨?_, ?_, fun vitima hv => minPorTimestamp_spec cache vitima hv⟩
  · cases hmin : TentaculoBusca.minPorTimestamp cache with
    | none =>
      cases cache with
      | nil =>
        simp [TentaculoBusca.adicionarCache, TentaculoBusca.dictAtribui,
          ConfigBusca.TAMANHO_MAX_CACHE]
      | cons e0 resto =>
        simp [TentaculoBusca.minPorTimestamp] at hmin
    | some vitima =>
      obtain ⟨hvm, _⟩ := minPorTimestamp_spec cache vitima hmin
      have herase : (cache.eraseP (fun x => x.1 == vitima.1)).length =
          cache.length - 1 :=
        List.length_eraseP_of_mem hvm (by simp)
      by_cases hcap : ConfigBusca.TAMANHO_MAX_CACHE ≤ cache.length
      · have hunf : TentaculoBusca.adicionarCache hashQuery agora cache query resultado =
            TentaculoBusca.dictAtribui (cache.eraseP (fun x => x.1 == vitima.1))
              (hashQuery query) ⟨resultado, agora⟩ := by
          simp [TentaculoBusca.adicionarCache, hmin, hcap]
        rw [hunf]
        refine le_trans (dictAtribui_length_le (cache.eraseP (fun x => x.1 == vitima.1))
          (hashQuery query) ⟨resultado, agora⟩) ?_
        have h200 : ConfigBusca.TAMANHO_MAX_CACHE = 200 := rfl
        rw [h200] at hcap hlen ⊢
        omega
      · have hunf : TentaculoBusca.adicionarCache hashQuery agora cache query resultado =
            TentaculoBusca.dictAtribui cache (hashQuery query) ⟨resultado, agora⟩ := by
          simp [TentaculoBusca.adicionarCache, hmin, hcap]
        rw [hunf]
        refine le_trans (dictAtribui_length_le cache (hashQuery query) ⟨resultado, agora⟩) ?_
        have h200 : ConfigBusca.TAMANHO_MAX_CACHE = 200 := rfl
        rw [h200] at hcap hlen ⊢
        omega
  · cases hf : cache.find? (fun e => e.1 == hashQuery query) with
    | none =>
      simpa [TentaculoBusca.verificarCache, hf] using hlen
    | some par =>
      by_cases hcmp : agora - par.2.timestamp <
          (ConfigBusca.TEMPO_EXPIRACAO_CACHE_MINUTOS : ℚ)
      · simpa [TentaculoBusca.verificarCache, hf, hcmp] using hlen
      · simp only [TentaculoBusca.verificarCache, hf]
        rw [if_neg hcmp]
        exact le_trans (List.length_eraseP_le _) hlen

/-- Witness for `cache_busca_limite_tamanho` on a two-entry query cache
at time 5. -/
theorem cache_busca_limite_tamanho_witness :
    (TentaculoBusca.adicionarCache id 5 cacheBuscaExemplo "q" "r").length ≤
      ConfigBusca.TAMANHO_MAX_CACHE ∧
    (TentaculoBusca.verificarCache id 5 cacheBuscaExemplo "q").2.length ≤
      ConfigBusca.TAMANHO_MAX_CACHE ∧
    ∀ vitima, TentaculoBusca.minPorTimestamp cacheBuscaExemplo = some vitima →
      vitima ∈ cacheBuscaExemplo ∧
        ∀ x ∈ cacheBuscaExemplo, vitima.2.timestamp ≤ x.2.timestamp :=
  cache_busca_limite_tamanho id 5 cacheBuscaExemplo "q" "r" (by decide)
